import Mathlib

/-!
Shallow embedding of the reconciliation core of the Visualize-progress
repository (`src/name_matching.py` and `src/progress_logic.py`).

Modelling conventions, used throughout:
* Timestamps are integer minutes on a global timeline; a pandas `NaT`
  (missing timestamp) is `none`, quantities coerced with
  `pd.to_numeric(..., errors='coerce')` are `Option Int` with `NaN = none`.
* Pandas comparisons against a missing value (`now > NaT`) are `False`;
  see `pdGt`.
* Every Python function in these two files returns `(data, debug_log)`;
  the log strings never influence the computed data, so the embedding
  returns the data component only.
* Python floats appear only as similarity scores; they are modelled as
  exact rationals.  Every comparison the theorems depend on
  (`score > 40`, `score > 0`, threshold and branch tests) falls on values
  where IEEE-754 evaluation and exact evaluation agree.
-/

/-! ### Fragment of Unicode / Python string primitives

`normalize_text` calls `unicodedata.normalize('NFKC', text)`, `str.lower`
and `re.sub`.  NFKC and lowercasing are modelled on an explicit character
universe, faithful to the Unicode character database for every character
that appears in this development: ASCII, CJK ideographs, full-width forms,
the combining acute accent U+0301, the spacing acute accent U+00B4 and
the precomposed `á` U+00E1.
Characters outside the tables below decompose to themselves and are
caseless, which is correct for all characters used in any theorem of this
file. -/

/-- Combining acute accent U+0301: the single combining mark in the
modelled universe (Unicode: combining class 230, composes with `a`). -/
def acuteC : Char := Char.ofNat 769

/-- Precomposed Latin small letter a with acute, U+00E1. -/
def aAcuteC : Char := Char.ofNat 225

/-- Spacing acute accent U+00B4: a symbol, not a combining character,
whose NFKC compatibility decomposition is space followed by the combining
acute accent U+0301. -/
def spacingAcuteC : Char := Char.ofNat 180

/-- NFKC compatibility decompositions, tabulated for the characters of the
modelled universe that have one: full-width Latin letters and digits map
to ASCII, the ideographic space U+3000 maps to the ASCII space, full-width
parentheses map to ASCII parentheses, the parenthesized ideograph `㈱`
maps to `(株)`, and the spacing acute accent U+00B4 maps to space plus the
combining acute accent — so a decomposition may emit a combining mark even
when the input contains none.  Every decomposition output character is
itself decomposition-free, as in the real Unicode data. -/
def decompTable : List (Char × List Char) :=
  [ ('Ａ', ['A']), ('Ｂ', ['B']), ('Ｃ', ['C']), ('Ｘ', ['X']),
    ('ａ', ['a']), ('ｂ', ['b']), ('ｃ', ['c']),
    ('１', ['1']), ('２', ['2']), ('３', ['3']),
    ('　', [' ']), ('（', ['(']), ('）', [')']), ('㈱', ['(', '株', ')']),
    (spacingAcuteC, [' ', acuteC]) ]

/-- Compatibility decomposition of one character: table entry if present,
otherwise the character itself. -/
def decompChar (c : Char) : List Char :=
  match decompTable.find? (fun e => decide (e.1 = c)) with
  | some e => e.2
  | none => [c]

/-- Primary canonical composition of the modelled universe: `a` followed
by the combining acute accent composes to `á`; no other pair composes. -/
def composePair (a b : Char) : Option Char :=
  if a = 'a' ∧ b = acuteC then some aAcuteC else none

/-- Canonical-composition scan: `p` is the pending starter; a composable
(pending, next) pair is replaced by its composite, which stays pending. -/
def ccAux (p : Char) : List Char → List Char
  | [] => [p]
  | b :: rest =>
    match composePair p b with
    | some c => ccAux c rest
    | none => p :: ccAux b rest

/-- Canonical composition pass of NFKC.  The canonical-reordering step of
the full algorithm is the identity on the modelled universe (it has a
single combining class), so NFKC is decomposition followed by this scan. -/
def canonComp : List Char → List Char
  | [] => []
  | a :: rest => ccAux a rest

/-- Python `unicodedata.normalize('NFKC', s)` on the modelled universe. -/
def nfkc (l : List Char) : List Char := canonComp (l.flatMap decompChar)

/-- ASCII lower-case table for Python `str.lower`.  All non-ASCII
characters of the modelled universe are caseless, so the table suffices. -/
def lowerTable : List (Char × Char) :=
  [ ('A', 'a'), ('B', 'b'), ('C', 'c'), ('D', 'd'), ('E', 'e'), ('F', 'f'),
    ('G', 'g'), ('H', 'h'), ('I', 'i'), ('J', 'j'), ('K', 'k'), ('L', 'l'),
    ('M', 'm'), ('N', 'n'), ('O', 'o'), ('P', 'p'), ('Q', 'q'), ('R', 'r'),
    ('S', 's'), ('T', 't'), ('U', 'u'), ('V', 'v'), ('W', 'w'), ('X', 'x'),
    ('Y', 'y'), ('Z', 'z') ]

/-- Python `str.lower` on one character of the modelled universe. -/
def lowerChar (c : Char) : Char :=
  match lowerTable.find? (fun e => decide (e.1 = c)) with
  | some e => e.2
  | none => c

/-- Characters removed by `re.sub(r'[\s\-,.()\[\]株式会社]', '', text)`:
ASCII whitespace (plus the NFKC-stable Unicode characters Python's `\s`
matches), hyphen, comma, period, parentheses, square brackets, and the
four individual characters of 株式会社.  A regex character class lists
single characters, so each of the four kanji is removed on its own. -/
def removableChars : List Char :=
  [ ' ', '\t', '\n', '\r', Char.ofNat 11, Char.ofNat 12,
    Char.ofNat 28, Char.ofNat 29, Char.ofNat 30, Char.ofNat 31,
    Char.ofNat 133, Char.ofNat 5760, Char.ofNat 8232, Char.ofNat 8233,
    '-', ',', '.', '(', ')', '[', ']', '株', '式', '会', '社' ]

/-- Membership in the removal set, as a Boolean. -/
def removableChar (c : Char) : Bool := removableChars.contains c

/-- Embedding of `name_matching.normalize_text` on string input:
NFKC compatibility fold, lower-casing, then deletion of the characters of
`removableChars`.  (The Python function also returns a debug log, dropped
here, and maps non-string input to `""`; see `normalizeCell`.) -/
def normalize_text (text : String) : String :=
  ⟨((nfkc text.data).map lowerChar).filter (fun c => ! removableChar c)⟩

/-- Non-string handling of `normalize_text`: a non-string cell value
(modelled as `none`) yields the empty string without error. -/
def normalizeCell (v : Option String) : String :=
  match v with
  | some s => normalize_text s
  | none => ""

/-- Python `pat in txt` helper: does `txt` start with `pat`? -/
def leadsWith : List Char → List Char → Bool
  | [], _ => true
  | _ :: _, [] => false
  | p :: ps, t :: ts => decide (p = t) && leadsWith ps ts

/-- Python substring operator `pat in txt` on character lists. -/
def containsSub (pat : List Char) : List Char → Bool
  | [] => leadsWith pat []
  | c :: t => leadsWith pat (c :: t) || containsSub pat t

/-- Python `a in b` on strings. -/
def pyIn (a b : String) : Bool := containsSub a.data b.data

/-- Embedding of `name_matching.get_match_score`: 0 if either side is
empty, 100 on equality, `85 + int(15 * (1 - |l1-l2| / max(l1,l2)))` on a
substring match, else 0.  The Python float expression equals the natural
floor computed here. -/
def get_match_score (str1 str2 : String) : ℕ :=
  if str1 = "" ∨ str2 = "" then 0
  else if str1 = str2 then 100
  else if pyIn str1 str2 || pyIn str2 str1 then
    let m := max str1.length str2.length
    85 + (15 * (m - Nat.dist str1.length str2.length)) / m
  else 0

/-- Embedding of `name_matching.find_best_match`: returns the canonical
name with the highest `get_match_score` against the normalized input,
scoring the canonical name itself and each of its aliases; a strict
comparison keeps the first-seen maximum.  Empty input name or empty
dictionary gives `(none, 0)`. -/
def find_best_match (name : String) (masterDict : List (String × List String)) :
    Option String × ℕ :=
  if name = "" ∨ masterDict = [] then (none, 0)
  else
    let nn := normalize_text name
    masterDict.foldl
      (fun acc entry =>
        let s0 := get_match_score nn (normalize_text entry.1)
        let acc1 := if s0 > acc.2 then (some entry.1, s0) else acc
        entry.2.foldl
          (fun a al =>
            let s := get_match_score nn (normalize_text al)
            if s > a.2 then (some entry.1, s) else a)
          acc1)
      (none, 0)

/-- Embedding of `name_matching.get_name_similarity_score`.
`planMasterName` is the name-master match of the plan row (Python `None`
when there was no match); `None` and `""` are equally falsy, and
`None == master_name` is false, so `Option.getD ""` is behaviour-exact. -/
def get_name_similarity_score (masterName : String) (planMasterName : Option String)
    (masterOriginal planOriginal : String) : ℕ :=
  let pmn := planMasterName.getD ""
  if pmn ≠ "" ∧ pmn = masterName then 100
  else if pmn ≠ "" ∧ (pyIn pmn masterName || pyIn masterName pmn) then 80
  else
    let nm := normalize_text masterOriginal
    let np := normalize_text planOriginal
    if nm = "" ∨ np = "" then 0
    else if pyIn nm np || pyIn np nm then 70
    else 0

/-! ### Data model

Row shapes of the DataFrames flowing through `progress_logic.py`.
Column names are romanized: 担当設備 = line, お客様名 = customer,
商品名 = product, 予定開始時刻/予定終了時刻/予定数 = plannedStart /
plannedEnd / plannedQty, 実生産開始時刻/実生産終了時刻/実生産数 /
実績総生産時間_分 = actualStart / actualEnd / actualQty /
actualDurationMin, 実セッション開始時刻リスト / 実セッション終了時刻リスト
= sessionStarts / sessionEnds, 正規_お客様名 / 正規_商品名 =
normCustomer / normProduct, 日付 = date. -/

/-- Row of the plan DataFrame as produced by `data_loader.load_plan_data`. -/
structure PlanRowIn where
  line : String
  customer : String
  product : String
  plannedStart : Option Int
  plannedEnd : Option Int
  plannedQty : Option Int
deriving DecidableEq

/-- Plan row after `apply_name_matching` added the name-master columns. -/
structure PlanRow where
  line : String
  customer : String
  product : String
  plannedStart : Option Int
  plannedEnd : Option Int
  plannedQty : Option Int
  normCustomer : Option String
  customerScore : ℕ
  normProduct : Option String
  productScore : ℕ
deriving DecidableEq

/-- Row of the product-master DataFrame (商品マスタ). -/
structure MasterRow where
  line : String
  customer : String
  product : String
deriving DecidableEq

/-- Row of the results DataFrame as produced by
`data_loader.load_results_data`: the session lists hold only successfully
parsed timestamps, `actualStart`/`actualEnd` are their min/max (`none`
when the record has no parsed session). -/
structure ActualRow where
  date : Int
  line : String
  customer : String
  product : String
  actualStart : Option Int
  actualEnd : Option Int
  actualQty : Option Int
  actualDurationMin : Option Int
  sessionStarts : List Int
  sessionEnds : List Int
deriving DecidableEq

/-- Name master (name_master.json): canonical name to alias list, one
association list per category, in dictionary insertion order. -/
structure NameMaster where
  customer : List (String × List String)
  product : List (String × List String)
deriving DecidableEq

/-- Embedding of `name_matching.apply_name_matching`: adds the
正規_お客様名 / お客様名スコア / 正規_商品名 / 商品名スコア columns from
`find_best_match` against each category of the name master. -/
def apply_name_matching (df : List PlanRowIn) (master : NameMaster) : List PlanRow :=
  df.map (fun r =>
    let c := find_best_match r.customer master.customer
    let p := find_best_match r.product master.product
    { line := r.line, customer := r.customer, product := r.product,
      plannedStart := r.plannedStart, plannedEnd := r.plannedEnd,
      plannedQty := r.plannedQty,
      normCustomer := c.1, customerScore := c.2,
      normProduct := p.1, productScore := p.2 })

/-! ### IdentityResolver: `_find_best_master_for_plan` -/

/-- Phase-1 score of a candidate whose customer name matched exactly:
1000 on an exact normalized product match, otherwise the product
similarity score re-weighted by 100% (`(prod_score / 100) * 100`). -/
def phase1Score (plan : PlanRow) (m : MasterRow) : ℚ :=
  if normalize_text plan.product = normalize_text m.product then 1000
  else ((get_name_similarity_score m.product plan.normProduct m.product plan.product : ℚ) / 100) * 100

/-- Phase-2 weighted score: customer similarity worth 60 points, product
similarity worth 40 (`(cust/100)*60 + (prod/100)*40`). -/
def phase2Score (plan : PlanRow) (m : MasterRow) : ℚ :=
  ((get_name_similarity_score m.customer plan.normCustomer m.customer plan.customer : ℚ) / 100) * 60
  + ((get_name_similarity_score m.product plan.normProduct m.product plan.product : ℚ) / 100) * 40

/-- Loop of phase 1: track the best candidate, updating on a strictly
greater score (first-seen maximum wins ties). -/
def pickBest (score : MasterRow → ℚ) (init : Option MasterRow × ℚ)
    (l : List MasterRow) : Option MasterRow × ℚ :=
  l.foldl (fun acc m => if score m > acc.2 then (some m, score m) else acc) init

/-- Loop of phase 2: as `pickBest` but a candidate must additionally
clear the absolute threshold of 40 points. -/
def pickBest40 (score : MasterRow → ℚ) (init : Option MasterRow × ℚ)
    (l : List MasterRow) : Option MasterRow × ℚ :=
  l.foldl (fun acc m => if score m > acc.2 ∧ score m > 40 then (some m, score m) else acc) init

/-- Embedding of `progress_logic._find_best_master_for_plan`: restrict the
catalog to rows of the plan's line; phase 1 scores the candidates whose
normalized customer name equals the plan's and returns its best when its
score is positive; otherwise phase 2 scores every line candidate with the
60/40 weighting above the threshold 40, carrying phase 1's accumulator.
The empty pandas `Series` returned on no match is `none`. -/
def find_best_master_for_plan (planRow : PlanRow) (masterDf : List MasterRow) :
    Option MasterRow :=
  let candidates := masterDf.filter (fun m => decide (m.line = planRow.line))
  let exactCust := candidates.filter
    (fun m => decide (normalize_text m.customer = normalize_text planRow.customer))
  let p1 := pickBest (phase1Score planRow) (none, 0) exactCust
  if p1.2 > 0 then p1.1
  else (pickBest40 (phase2Score planRow) p1 candidates).1

/-- Embedding of `progress_logic._clean_plan_with_master`: run
`apply_name_matching`, then overwrite each row's customer and product
with the resolved master entry's canonical names when one is found. -/
def clean_plan_with_master (planDf : List PlanRowIn) (masterDf : List MasterRow)
    (nameMaster : NameMaster) : List PlanRow :=
  let matched := apply_name_matching planDf nameMaster
  matched.map (fun row =>
    match find_best_master_for_plan row masterDf with
    | some best => { row with customer := best.customer, product := best.product }
    | none => row)

/-! ### ReconciliationMerger: `_merge_plan_and_results` -/

/-- Composite merge key 「日付・担当設備・お客様名・商品名」.  The plan
side derives 日付 from 予定開始時刻, hence the `Option`: a plan row whose
start failed to parse has a missing date key. -/
abbrev MergeKey := Option Int × String × String × String

/-- Calendar day of a timestamp in minutes (`pd.to_datetime(·).dt.date`). -/
def dateOf (t : Int) : Int := Int.fdiv t 1440

/-- Merge key of a (cleaned) plan row. -/
def planKey (p : PlanRow) : MergeKey :=
  (p.plannedStart.map dateOf, p.line, p.customer, p.product)

/-- Merge key of a results row. -/
def actualKey (a : ActualRow) : MergeKey :=
  (some a.date, a.line, a.customer, a.product)

/-- Boolean key membership used by the join. -/
def keyMem (k : MergeKey) (l : List MergeKey) : Bool :=
  l.any (fun x => decide (x = k))

/-- One aggregated results row (`results_df.groupby(key).agg(...)`). -/
structure AggRow where
  key : MergeKey
  actualStart : Option Int
  actualEnd : Option Int
  actualQty : Int
  actualDurationMin : Int
  sessionStarts : List Int
  sessionEnds : List Int
deriving DecidableEq

/-- Pandas `min` over a column, skipping missing values. -/
def optMin : Option Int → Option Int → Option Int
  | none, b => b
  | a, none => a
  | some x, some y => some (min x y)

/-- Pandas `max` over a column, skipping missing values. -/
def optMax : Option Int → Option Int → Option Int
  | none, b => b
  | a, none => a
  | some x, some y => some (max x y)

/-- Aggregation of the results rows sharing one key: earliest start,
latest end, summed quantity and duration (pandas `sum` skips `NaN` and
yields 0 on all-missing), concatenated session lists. -/
def aggFor (results : List ActualRow) (k : MergeKey) : AggRow :=
  let rs := results.filter (fun r => decide (actualKey r = k))
  { key := k
  , actualStart := rs.foldl (fun acc r => optMin acc r.actualStart) none
  , actualEnd := rs.foldl (fun acc r => optMax acc r.actualEnd) none
  , actualQty := (rs.map (fun r => r.actualQty.getD 0)).sum
  , actualDurationMin := (rs.map (fun r => r.actualDurationMin.getD 0)).sum
  , sessionStarts := rs.flatMap (fun r => r.sessionStarts)
  , sessionEnds := rs.flatMap (fun r => r.sessionEnds) }

/-- The aggregated results table: one row per distinct key.  (Pandas
`groupby` sorts the keys; the claims below are about row multisets and
field values, never about row order, so first-occurrence order is kept.) -/
def aggregate_results (results : List ActualRow) : List AggRow :=
  ((results.map actualKey).dedup).map (aggFor results)

/-- Row of the merged DataFrame.  Plan-only rows carry `none` actual
fields (the code explicitly creates those columns as `NaT`/`NaN`);
actual-only rows carry `none` plan fields (in pandas those columns are
either `NaN` from the outer join or absent, which downstream code treats
alike for the fields modelled here).  The 正規_* helper columns are not
read after the merge and are dropped from this row shape. -/
structure MergedRow where
  date : Option Int
  line : String
  customer : String
  product : String
  plannedStart : Option Int
  plannedEnd : Option Int
  plannedQty : Option Int
  actualStart : Option Int
  actualEnd : Option Int
  actualQty : Option Int
  actualDurationMin : Option Int
  sessionStarts : List Int
  sessionEnds : List Int
deriving DecidableEq

/-- Composite key of a merged row. -/
def mergedKey (m : MergedRow) : MergeKey := (m.date, m.line, m.customer, m.product)

/-- A plan row that found no aggregated results partner. -/
def planOnlyRow (p : PlanRow) : MergedRow :=
  { date := p.plannedStart.map dateOf, line := p.line, customer := p.customer,
    product := p.product,
    plannedStart := p.plannedStart, plannedEnd := p.plannedEnd, plannedQty := p.plannedQty,
    actualStart := none, actualEnd := none, actualQty := none, actualDurationMin := none,
    sessionStarts := [], sessionEnds := [] }

/-- A plan row joined with the aggregated results row of its key. -/
def combineRow (p : PlanRow) (a : AggRow) : MergedRow :=
  { planOnlyRow p with
    actualStart := a.actualStart, actualEnd := a.actualEnd,
    actualQty := some a.actualQty, actualDurationMin := some a.actualDurationMin,
    sessionStarts := a.sessionStarts, sessionEnds := a.sessionEnds }

/-- An aggregated results row with no plan partner. -/
def actualOnlyRow (a : AggRow) : MergedRow :=
  { date := a.key.1, line := a.key.2.1, customer := a.key.2.2.1, product := a.key.2.2.2,
    plannedStart := none, plannedEnd := none, plannedQty := none,
    actualStart := a.actualStart, actualEnd := a.actualEnd,
    actualQty := some a.actualQty, actualDurationMin := some a.actualDurationMin,
    sessionStarts := a.sessionStarts, sessionEnds := a.sessionEnds }

/-- Outer join on the composite key (`pd.merge(..., how='outer')`).  The
aggregated side has one row per key, so each plan row joins at most one
partner; unmatched aggregated rows are appended. -/
def outerJoin (cleaned : List PlanRow) (aggs : List AggRow) : List MergedRow :=
  (cleaned.map (fun p =>
    match aggs.find? (fun a => decide (a.key = planKey p)) with
    | some a => combineRow p a
    | none => planOnlyRow p))
  ++ ((aggs.filter (fun a => ! keyMem a.key (cleaned.map planKey))).map actualOnlyRow)

/-- Embedding of `progress_logic._merge_plan_and_results`, with the four
emptiness branches of the source: outer join when both sides are present,
otherwise a copy of the non-empty side (with the missing side's fields
`none`, per the column-creation loop of the source), otherwise empty. -/
def merge_plan_and_results (cleaned : List PlanRow) (results : List ActualRow) :
    List MergedRow :=
  let aggs := aggregate_results results
  if cleaned ≠ [] ∧ aggs ≠ [] then outerJoin cleaned aggs
  else if cleaned ≠ [] then cleaned.map planOnlyRow
  else if aggs ≠ [] then aggs.map actualOnlyRow
  else []

/-! ### ProgressClassifier: `calculate_differences_and_status`, `get_status` -/

/-- Pandas ordered comparison `a > b` on possibly-missing timestamps: any
comparison involving `NaT` is `False`. -/
def pdGt (a b : Option Int) : Bool :=
  match a, b with
  | some x, some y => decide (y < x)
  | _, _ => false

/-- Embedding of `progress_logic.get_status`.  The source reads
`datetime.now()` on entry; `now` is that clock value, made an explicit
parameter of the embedding.  Presence of 予定開始時刻 decides "planned",
presence of 実生産開始時刻 decides "resulted". -/
def get_status (row : MergedRow) (now : Int) : String :=
  let isPlanned := row.plannedStart.isSome
  let isResulted := row.actualStart.isSome
  if isPlanned && !isResulted then
    if pdGt (some now) row.plannedEnd then "遅延(未開始)" else "未開始"
  else if isPlanned && isResulted then
    if row.actualEnd.isNone then
      if pdGt (some now) row.plannedEnd then "遅延(進行中)" else "進行中"
    else
      if pdGt row.actualEnd row.plannedEnd then "完了(遅延)" else "完了"
  else if !isPlanned && isResulted then "予定外"
  else "---"

/-- Merged row together with the three columns added by
`calculate_differences_and_status` (生産数差異, 生産時間差異(分), 進捗状態). -/
structure ClassifiedRow where
  row : MergedRow
  qtyDelta : Int
  durationDeltaMin : Option Int
  status : String
deriving DecidableEq

/-- Per-row embedding of `calculate_differences_and_status`.

生産数差異 is `actual.fillna(0) - planned.fillna(0)`.

生産時間差異(分): the source computes
`planned_duration = (end - start) on the rows where both are present`,
then assigns `actual_duration - planned_duration.fillna(0)`.
`planned_duration` is a Series indexed by that subset only, and its
`fillna(0)` runs before the subtraction aligns the indexes, so on every
row missing 予定開始時刻 or 予定終了時刻 the aligned value is `NaN`, and
`NaN` propagates: the column is `none` there, not the actual duration. -/
def calcRow (now : Int) (r : MergedRow) : ClassifiedRow :=
  { row := r
  , qtyDelta := r.actualQty.getD 0 - r.plannedQty.getD 0
  , durationDeltaMin :=
      match r.plannedStart, r.plannedEnd with
      | some ps, some pe => some (r.actualDurationMin.getD 0 - (pe - ps))
      | _, _ => none
  , status := get_status r now }

/-- Embedding of `progress_logic.calculate_differences_and_status` over
the whole merged table. -/
def calculate_differences_and_status (now : Int) (df : List MergedRow) :
    List ClassifiedRow :=
  df.map (calcRow now)

/-- Row filter of step 4 of `create_progress_table`: keep unplanned rows
that have an actual start, and planned rows that have both planned
timestamps. -/
def keepRow (c : ClassifiedRow) : Bool :=
  (c.row.plannedStart.isNone && c.row.actualStart.isSome)
  || (c.row.plannedStart.isSome && c.row.plannedEnd.isSome)

/-- Embedding of `progress_logic.create_progress_table`: clean the plan
against the master, merge with the results, classify, filter.  When the
plan side is empty and the results side is not, the merged frame lacks the
予定数 column and `calculate_differences_and_status` raises `KeyError`;
that abnormal termination is `none`. -/
def create_progress_table (now : Int) (planDf : List PlanRowIn)
    (resultsDf : List ActualRow) (masterDf : List MasterRow)
    (nameMaster : NameMaster) : Option (List ClassifiedRow) :=
  let cleaned := clean_plan_with_master planDf masterDf nameMaster
  if cleaned.isEmpty && !resultsDf.isEmpty then none
  else
    let finalDf := merge_plan_and_results cleaned resultsDf
    some ((calculate_differences_and_status now finalDf).filter keepRow)

/-! ### TimelineBuilder: `create_timeline_dataframe` -/

/-- Slot starts of the fixed grid: `pd.date_range(08:30, 17:01, 15min)`
on the target date yields 08:30, 08:45, …, 17:00 — 35 slots.  `base` is
the minute value of the target date's midnight. -/
def slotStarts (base : Int) : List Int :=
  (List.range 35).map (fun i => base + 510 + 15 * (i : Int))

/-- Overlap test of the source, for an interval against the slot
`[slotStart, slotStart + 15)`: `start < slot_end and end > slot_start`. -/
def overlapB (s e slotStart : Int) : Bool :=
  decide (s < slotStart + 15) && decide (slotStart < e)

/-- Record filter of `create_timeline_dataframe`: keep rows having a full
planned interval or at least one actual session. -/
def timelineRecordKept (r : MergedRow) : Bool :=
  (r.plannedStart.isSome && r.plannedEnd.isSome) || !r.sessionStarts.isEmpty

/-- Cells of one timeline row, in slot order: first the planned interval
marks its overlapping slots 予定, then each session (in list order) marks
its overlapping slots, 実績(超過) when the slot starts at or after a known
予定終了時刻, else 実績(予定内), overwriting previous passes.  The
`pd.notna` session guards of the source are identically true here because
the loader stores only parsed timestamps in the session lists. -/
def timelineRowCells (r : MergedRow) (base : Int) : List String :=
  let slots := slotStarts base
  let planCells :=
    match r.plannedStart, r.plannedEnd with
    | some ps, some pe => slots.map (fun a => if overlapB ps pe a then "予定" else "")
    | _, _ => slots.map (fun _ => "")
  (r.sessionStarts.zip r.sessionEnds).foldl
    (fun cells se =>
      (slots.zip cells).map (fun ac =>
        if overlapB se.1 se.2 ac.1 then
          match r.plannedEnd with
          | some pe => if ac.1 ≥ pe then "実績(超過)" else "実績(予定内)"
          | none => "実績(予定内)"
        else ac.2))
    planCells

/-! ### Specification-side definitions

These two definitions follow the wording of the specification (§4.6),
for comparison against the source-derived `get_status`. -/

/-- Status state machine exactly as tabulated in the specification:
a pure function of has-plan, has-actual-start, has-actual-end,
now vs planned_end and actual_end vs planned_end, with the spec's
English state names rendered by the Japanese strings the table maps
them to.  A comparison against a missing planned_end is false, as in
the code's pandas semantics. -/
def specStatus (row : MergedRow) (now : Int) : String :=
  let hasPlan := row.plannedStart.isSome
  let hasActualStart := row.actualStart.isSome
  let hasActualEnd := row.actualEnd.isSome
  if hasPlan && !hasActualStart && pdGt (some now) row.plannedEnd then "遅延(未開始)"
  else if hasPlan && !hasActualStart then "未開始"
  else if hasPlan && hasActualStart && !hasActualEnd && pdGt (some now) row.plannedEnd then "遅延(進行中)"
  else if hasPlan && hasActualStart && !hasActualEnd then "進行中"
  else if hasPlan && hasActualStart && hasActualEnd && pdGt row.actualEnd row.plannedEnd then "完了(遅延)"
  else if hasPlan && hasActualStart && hasActualEnd then "完了"
  else if !hasPlan && hasActualStart then "予定外"
  else "---"

/-- Customer-name similarity score of a catalog entry against a plan row,
as computed in phase 2 of `_find_best_master_for_plan`. -/
def custSimScore (plan : PlanRow) (m : MasterRow) : ℕ :=
  get_name_similarity_score m.customer plan.normCustomer m.customer plan.customer


/-! ### Concrete instances used by witnesses and counterexamples -/

/-- Planned, unstarted record (C2 witness). -/
def c2rowNotStarted : MergedRow :=
  { date := some 0, line := "L1", customer := "c", product := "p",
    plannedStart := some 540, plannedEnd := some 600, plannedQty := some 10,
    actualStart := none, actualEnd := none, actualQty := none,
    actualDurationMin := none, sessionStarts := [], sessionEnds := [] }

/-- Finished record (C2 witness). -/
def c2rowCompleted : MergedRow :=
  { c2rowNotStarted with
    actualStart := some 545,
    actualEnd := some 595,
    actualQty := some 9,
    actualDurationMin := some 50,
    sessionStarts := [545],
    sessionEnds := [595] }

/-- Merged row of C3's failing input: an unplanned record (no planned
timestamps) with an actual duration of 50 minutes. -/
def c3row : MergedRow :=
  { date := some 0, line := "L1", customer := "c", product := "p",
    plannedStart := none, plannedEnd := none, plannedQty := none,
    actualStart := some 540, actualEnd := some 590, actualQty := some 5,
    actualDurationMin := some 50, sessionStarts := [540], sessionEnds := [590] }

/-- Record with a single zero-length session at 515 minutes = 08:35,
strictly inside the first slot [08:30, 08:45) of the grid (C4). -/
def c4row : MergedRow :=
  { date := some 0, line := "L1", customer := "c", product := "p",
    plannedStart := none, plannedEnd := none, plannedQty := none,
    actualStart := some 515, actualEnd := some 515, actualQty := some 1,
    actualDurationMin := some 0, sessionStarts := [515], sessionEnds := [515] }

/-- Cleaned plan row whose key differs from the C5 actual rows' key. -/
def c5plan : PlanRow :=
  { line := "L1", customer := "c1", product := "p1",
    plannedStart := some 540, plannedEnd := some 600, plannedQty := some 10,
    normCustomer := none, customerScore := 0, normProduct := none, productScore := 0 }

/-- First C5 actual row; its key (0, L2, c2, p2) is shared with `c5r2`
and disjoint from `c5plan`'s key. -/
def c5r1 : ActualRow :=
  { date := 0, line := "L2", customer := "c2", product := "p2",
    actualStart := some 540, actualEnd := some 570, actualQty := some 3,
    actualDurationMin := some 30, sessionStarts := [540], sessionEnds := [570] }

/-- Second C5 actual row, same key as `c5r1`. -/
def c5r2 : ActualRow :=
  { c5r1 with
    actualStart := some 580,
    actualEnd := some 590,
    actualQty := some 4,
    actualDurationMin := some 10,
    sessionStarts := [580],
    sessionEnds := [590] }

/-- Plan row resolved exactly by `c6master` (C6 witness). -/
def c6plan : PlanRow :=
  { line := "L1", customer := "abc", product := "x",
    plannedStart := some 540, plannedEnd := some 600, plannedQty := some 1,
    normCustomer := none, customerScore := 0, normProduct := none, productScore := 0 }

/-- Catalog row on the same line as `c6plan` (C6 witness). -/
def c6master : MasterRow := { line := "L1", customer := "abc", product := "x" }

/-- Raw plan row for the C7 witness pipeline run. -/
def c7plan : PlanRowIn :=
  { line := "L1", customer := "c", product := "p",
    plannedStart := some 540, plannedEnd := some 600, plannedQty := some 10 }

/-- Output of the C7 witness pipeline run. -/
def c7out : List ClassifiedRow :=
  (create_progress_table 600 [c7plan] [] [] ⟨[], []⟩).getD []

/-- Fallback row used to take the head of `c7out`. -/
def c7default : ClassifiedRow :=
  { row := { date := none, line := "", customer := "", product := "",
             plannedStart := none, plannedEnd := none, plannedQty := none,
             actualStart := none, actualEnd := none, actualQty := none,
             actualDurationMin := none, sessionStarts := [], sessionEnds := [] },
    qtyDelta := 0, durationDeltaMin := none, status := "" }

/-- Head row of the C7 witness run. -/
def c7r : ClassifiedRow := c7out.headD c7default

/-- Plan row whose customer name 株式会社 normalizes to the empty
string (C9). -/
def c9plan : PlanRow :=
  { line := "L1", customer := "株式会社", product := "x",
    plannedStart := some 540, plannedEnd := some 600, plannedQty := some 1,
    normCustomer := none, customerScore := 0, normProduct := none, productScore := 0 }

/-- Catalog row whose customer name is a bare hyphen, normalizing to the
empty string, with the same product as `c9plan` (C9). -/
def c9master : MasterRow := { line := "L1", customer := "-", product := "x" }

/-! ## Theorems -/

/-- C1: for every merged record and clock value, the status computed by
`get_status` equals the §4.6 state machine of the specification
(`specStatus`): delayed-not-started / not-started on a plan without an
actual start according to now vs planned_end, delayed-in-progress /
in-progress on a started but unfinished record, completed-late /
completed on a finished record according to actual_end vs planned_end,
unplanned without a plan but with an actual start, and the `---` sentinel
with neither. -/
theorem get_status_matches_spec_state_machine (row : MergedRow) (now : Int) :
    get_status row now = specStatus row now := by
  unfold get_status specStatus
  rcases row with ⟨d, l, c, p, ps, pe, pq, ast, ae, aq, ad, ss, se⟩
  cases ps <;> cases ast <;> cases ae <;> simp

/-- C2: the classifier is a pure, deterministic function of
(record, now): equal clock values give equal statuses; advancing the
clock past a present planned_end flips 未開始 (not-started) to
遅延(未開始) (delayed-not-started); and a record classified 完了
(completed), 完了(遅延) (completed-late) or 予定外 (unplanned) keeps that
status at every other clock value. -/
theorem get_status_pure_and_monotone :
    (∀ (row : MergedRow) (now₁ now₂ : Int), now₁ = now₂ →
        get_status row now₁ = get_status row now₂)
  ∧ (∀ (row : MergedRow) (now now' pe : Int),
        get_status row now = "未開始" → row.plannedEnd = some pe → pe < now' →
        get_status row now' = "遅延(未開始)")
  ∧ (∀ (row : MergedRow) (now now' : Int),
        (get_status row now = "完了" ∨ get_status row now = "完了(遅延)" ∨
         get_status row now = "予定外") →
        get_status row now' = get_status row now) := by
  refine ⟨fun row n₁ n₂ h => by rw [h], ?_, ?_⟩
  · intro row now now' pe h hpe hlt
    rcases row with ⟨d, l, c, p, ps, pe0, pq, ast, ae, aq, ad, ss, se⟩
    simp only at hpe
    subst hpe
    cases ps <;> cases ast <;> cases ae <;>
      simp only [get_status, pdGt, ite_eq_iff] at h ⊢ <;>
      simp_all
  · intro row now now' h
    rcases row with ⟨d, l, c, p, ps, pe0, pq, ast, ae, aq, ad, ss, se⟩
    cases ps <;> cases ast <;> cases ae <;>
      first
        | rfl
        | (simp only [get_status, pdGt, ite_eq_iff] at h; simp_all)

/-- Witness for C2: at now = 550 `c2rowNotStarted` is 未開始 and
advancing to now = 700 > planned_end flips it to 遅延(未開始);
`c2rowCompleted` is 完了 at now = 550 and stays 完了 at now = 700. -/
theorem get_status_pure_and_monotone_witness :
    get_status c2rowNotStarted 700 = "遅延(未開始)"
    ∧ get_status c2rowCompleted 700 = "完了" := by
  constructor
  · exact get_status_pure_and_monotone.2.1 c2rowNotStarted 550 700 600
      (by decide) (by decide) (by decide)
  · have h := get_status_pure_and_monotone.2.2 c2rowCompleted 550 700
      (Or.inl (by decide))
    rw [h]
    decide

/-- C3 (code bug): on a record with an actual duration but no planned
timestamps, `calculate_differences_and_status` leaves 生産時間差異(分)
missing (`NaN`) instead of the actual duration 50 − 0 = 50 that the
specification's "planned duration treated as 0" rule demands — the
source's `planned_duration.fillna(0)` runs before pandas index alignment
re-introduces `NaN` on exactly those rows, defeating its purpose. -/
theorem duration_delta_null_without_plan_times :
    c3row.actualDurationMin = some 50 ∧ c3row.plannedStart = none ∧
    c3row.plannedEnd = none ∧
    (calcRow 600 c3row).durationDeltaMin = none ∧
    (calcRow 600 c3row).durationDeltaMin ≠ some 50 := by decide

/-- C4 counterexample: the claim says a zero-length session interval
never marks a slot, but the session [515, 515) of `c4row` (08:35, a
zero-length interval strictly inside the first slot [08:30, 08:45))
satisfies the source's overlap test and marks that slot 実績(予定内). -/
theorem zero_length_session_marks_slot :
    c4row.sessionStarts = [515] ∧ c4row.sessionEnds = [515] ∧
    overlapB 515 515 510 = true ∧
    (timelineRowCells c4row 0).get? 0 = some "実績(予定内)" := by decide

/-- C4 as amended: the source's overlap test is the conjunction
`start < slot_end ∧ end > slot_start`; for a well-ordered interval
(start < end) that is exactly non-empty half-open-interval intersection
of [start, end) with [slot_start, slot_start + 15); a zero-length
interval still marks every slot it lies strictly inside. -/
theorem overlap_test_halfopen :
    ∀ s e a : Int,
      (s < e → (overlapB s e a = true ↔
        ∃ t : Int, (s ≤ t ∧ t < e) ∧ (a ≤ t ∧ t < a + 15)))
      ∧ (s = e → (overlapB s e a = true ↔ a < s ∧ s < a + 15)) := by
  intro s e a
  constructor
  · intro hse
    simp only [overlapB, Bool.and_eq_true, decide_eq_true_eq]
    constructor
    · rintro ⟨h1, h2⟩
      rcases le_total s a with hc | hc
      · exact ⟨a, ⟨hc, h2⟩, le_refl a, by omega⟩
      · exact ⟨s, ⟨le_refl s, hse⟩, hc, h1⟩
    · rintro ⟨t, ⟨h1, h2⟩, h3, h4⟩
      omega
  · intro he
    subst he
    simp only [overlapB, Bool.and_eq_true, decide_eq_true_eq]
    exact and_comm

/-- Witness for C4's amended theorem: the interval [0, 20) overlaps the
slot starting at 10. -/
theorem overlap_test_halfopen_witness :
    overlapB 0 20 10 = true ∧ ((0 : Int) < 20) := by
  refine ⟨?_, by decide⟩
  exact ((overlap_test_halfopen 0 20 10).1 (by decide)).mpr
    ⟨10, ⟨by decide, by decide⟩, by decide, by decide⟩

/-- C10: `normalize_text` deletes every occurrence of each character of
its removal set — including each of 株, 式, 会, 社 individually, not just
the contiguous token 株式会社: no output ever contains a removable
character, a lone 会 or 式 normalizes to the empty string, and the kanji
are deleted from the middle of other text. -/
theorem normalize_deletes_individual_chars :
    (∀ s : String, (normalize_text s).data.filter removableChar = [])
    ∧ normalize_text "会" = "" ∧ normalize_text "式" = ""
    ∧ normalize_text "a株b社c" = "abc"
    ∧ (removableChar '株' ∧ removableChar '式' ∧ removableChar '会' ∧ removableChar '社') := by
  refine ⟨?_, by decide, by decide, by decide, by decide, by decide, by decide, by decide⟩
  intro s
  show (((nfkc s.data).map lowerChar).filter (fun c => ! removableChar c)).filter
      removableChar = []
  rw [List.filter_filter]
  simp

/-- Helper: `leadsWith` is reflexive. -/
theorem leadsWith_refl (l : List Char) : leadsWith l l = true := by
  induction l with
  | nil => rfl
  | cons c t ih => simp [leadsWith, ih]

/-- Helper: every string is a Python substring of itself. -/
theorem containsSub_self (l : List Char) : containsSub l l = true := by
  cases l with
  | nil => rfl
  | cons c t => simp [containsSub, leadsWith_refl]

/-- Helper: `pyIn s s` always holds. -/
theorem pyIn_self (s : String) : pyIn s s = true := containsSub_self s.data

/-- Helper: similarity scores never exceed 100. -/
theorem simScore_le_100 (a : String) (b : Option String) (c d : String) :
    get_name_similarity_score a b c d ≤ 100 := by
  simp only [get_name_similarity_score]
  split_ifs <;> omega

/-- Helper: with a zero customer similarity the phase-2 weighted score is
at most the full product weight, 40. -/
theorem phase2_le_40_of_cust0 (plan : PlanRow) (m : MasterRow)
    (h : custSimScore plan m = 0) : phase2Score plan m ≤ 40 := by
  unfold phase2Score
  unfold custSimScore at h
  rw [h]
  have hb := simScore_le_100 m.product plan.normProduct m.product plan.product
  have hb' : ((get_name_similarity_score m.product plan.normProduct m.product
      plan.product : ℚ)) ≤ 100 := by
    exact_mod_cast hb
  push_cast
  nlinarith

/-- Helper: a candidate whose normalized customer name equals the plan's
can have customer similarity 0 only when both normalize to the empty
string (equal non-empty normalizations score at least the 70-point
substring tier). -/
theorem custSim_zero_of_normeq (plan : PlanRow) (m : MasterRow)
    (heq : normalize_text m.customer = normalize_text plan.customer)
    (h0 : custSimScore plan m = 0) :
    normalize_text plan.customer = "" ∧ normalize_text m.customer = "" := by
  simp only [custSimScore, get_name_similarity_score] at h0
  split_ifs at h0 with h1 h2 h3 h4
  · rcases h3 with h3 | h3
    · rw [heq] at h3
      exact ⟨h3, heq.trans h3⟩
    · exact ⟨h3, heq.trans h3⟩
  · have := pyIn_self (normalize_text plan.customer)
    rw [← heq] at this
    rw [heq] at h4
    simp [pyIn_self] at h4

/-- Helper: the phase-1 loop only ever selects a member of its candidate
list. -/
theorem pickBest_mem (score : MasterRow → ℚ) (l : List MasterRow) :
    ∀ (init : Option MasterRow × ℚ) (m : MasterRow),
      (pickBest score init l).1 = some m → init.1 = some m ∨ m ∈ l := by
  induction l with
  | nil => intro init m h; exact Or.inl h
  | cons hd tl ih =>
    intro init m h
    rw [pickBest, List.foldl_cons] at h
    rcases ih _ m h with h1 | h1
    · by_cases hc : score hd > init.2
      · rw [if_pos hc] at h1
        simp only at h1
        injection h1 with h1
        exact Or.inr (h1 ▸ List.mem_cons_self hd tl)
      · rw [if_neg hc] at h1
        exact Or.inl h1
    · exact Or.inr (List.mem_cons_of_mem hd h1)

/-- Helper: the phase-1 loop never lowers the running best score. -/
theorem pickBest_snd_mono (score : MasterRow → ℚ) (l : List MasterRow) :
    ∀ init : Option MasterRow × ℚ, init.2 ≤ (pickBest score init l).2 := by
  induction l with
  | nil => intro init; exact le_refl _
  | cons hd tl ih =>
    intro init
    rw [pickBest, List.foldl_cons]
    by_cases hc : score hd > init.2
    · rw [if_pos hc]
      exact le_trans (le_of_lt hc) (ih _)
    · rw [if_neg hc]
      exact ih _

/-- Helper: when the phase-1 loop did not improve on its initial score,
its selection is unchanged. -/
theorem pickBest_fst_none (score : MasterRow → ℚ) (l : List MasterRow) :
    ∀ init : Option MasterRow × ℚ, init.1 = none →
      ¬ init.2 < (pickBest score init l).2 → (pickBest score init l).1 = none := by
  induction l with
  | nil => intro init h _; exact h
  | cons hd tl ih =>
    intro init h hnot
    rw [pickBest, List.foldl_cons] at hnot ⊢
    by_cases hc : score hd > init.2
    · exfalso
      apply hnot
      rw [if_pos hc]
      exact lt_of_lt_of_le hc (pickBest_snd_mono score tl _)
    · rw [if_neg hc] at hnot ⊢
      exact ih _ h hnot

/-- Helper: the phase-2 loop only selects a listed candidate whose score
strictly exceeds the threshold 40. -/
theorem pickBest40_sel (score : MasterRow → ℚ) (l : List MasterRow) :
    ∀ (init : Option MasterRow × ℚ) (m : MasterRow),
      (pickBest40 score init l).1 = some m →
      init.1 = some m ∨ (m ∈ l ∧ score m > 40) := by
  induction l with
  | nil => intro init m h; exact Or.inl h
  | cons hd tl ih =>
    intro init m h
    rw [pickBest40, List.foldl_cons] at h
    rcases ih _ m h with h1 | h1
    · by_cases hc : score hd > init.2 ∧ score hd > 40
      · rw [if_pos hc] at h1
        simp only at h1
        injection h1 with h1
        subst h1
        exact Or.inr ⟨List.mem_cons_self hd tl, hc.2⟩
      · rw [if_neg hc] at h1
        exact Or.inl h1
    · exact Or.inr ⟨List.mem_cons_of_mem hd h1.1, h1.2⟩

/-- C6: whatever catalog entry `_find_best_master_for_plan` returns was
drawn from the candidates filtered to the plan record's line (both in
phase 1 and phase 2), so its 担当設備 always equals the plan's — there is
never a cross-line match. -/
theorem resolver_line_invariant (plan : PlanRow) (masterDf : List MasterRow)
    (m : MasterRow) (h : find_best_master_for_plan plan masterDf = some m) :
    m.line = plan.line := by
  unfold find_best_master_for_plan at h
  simp only at h
  have candLine : ∀ x ∈ masterDf.filter (fun mr => decide (mr.line = plan.line)),
      x.line = plan.line := by
    intro x hx
    have := (List.mem_filter.mp hx).2
    simpa using this
  by_cases hc :
      (pickBest (phase1Score plan) (none, 0)
        ((masterDf.filter (fun mr => decide (mr.line = plan.line))).filter
          (fun mr => decide (normalize_text mr.customer = normalize_text plan.customer)))).2 > 0
  · rw [if_pos hc] at h
    rcases pickBest_mem _ _ _ _ h with h1 | h1
    · exact absurd h1 (by simp)
    · exact candLine m (List.mem_filter.mp h1).1
  · rw [if_neg hc] at h
    rcases pickBest40_sel _ _ _ _ h with h1 | h1
    · have := pickBest_fst_none (phase1Score plan)
        ((masterDf.filter (fun mr => decide (mr.line = plan.line))).filter
          (fun mr => decide (normalize_text mr.customer = normalize_text plan.customer)))
        (none, 0) rfl (by simpa using hc)
      rw [this] at h1
      exact absurd h1 (by simp)
    · exact candLine m h1.1

/-- Witness for C6: the resolver matches `c6plan` to `c6master` and the
returned entry's line equals the plan's line. -/
theorem resolver_line_invariant_witness :
    find_best_master_for_plan c6plan [c6master] = some c6master ∧
    c6master.line = c6plan.line := by
  refine ⟨by decide, ?_⟩
  exact resolver_line_invariant c6plan [c6master] c6master (by decide)

/-- C9 counterexample: the resolver does return an entry whose customer
similarity score is 0 when its product matches exactly — the phase-1 path
fires because 株式会社 and a bare hyphen both normalize to the empty
string, while `get_name_similarity_score` yields 0 on empty
normalizations. -/
theorem resolver_returns_zero_customer_entry :
    find_best_master_for_plan c9plan [c9master] = some c9master ∧
    custSimScore c9plan c9master = 0 ∧
    normalize_text c9plan.product = normalize_text c9master.product := by decide

/-- C9 as amended: a zero customer similarity caps the phase-2 weighted
score at 40, which never clears the strict threshold, so phase 2 never
selects such an entry; the resolver as a whole can return an entry with
customer similarity 0 only through phase 1, and then only when the plan's
and the entry's customer names both normalize to the empty string. -/
theorem resolver_zero_customer_amended (plan : PlanRow) (masterDf : List MasterRow)
    (m : MasterRow) (h : find_best_master_for_plan plan masterDf = some m) :
    (custSimScore plan m = 0 → phase2Score plan m ≤ 40)
    ∧ (custSimScore plan m = 0 →
        normalize_text plan.customer = "" ∧ normalize_text m.customer = "") := by
  refine ⟨fun h0 => phase2_le_40_of_cust0 plan m h0, fun h0 => ?_⟩
  unfold find_best_master_for_plan at h
  simp only at h
  by_cases hc :
      (pickBest (phase1Score plan) (none, 0)
        ((masterDf.filter (fun mr => decide (mr.line = plan.line))).filter
          (fun mr => decide (normalize_text mr.customer = normalize_text plan.customer)))).2 > 0
  · rw [if_pos hc] at h
    rcases pickBest_mem _ _ _ _ h with h1 | h1
    · exact absurd h1 (by simp)
    · have heq := (List.mem_filter.mp h1).2
      simp only [decide_eq_true_eq] at heq
      exact custSim_zero_of_normeq plan m heq h0
  · rw [if_neg hc] at h
    rcases pickBest40_sel _ _ _ _ h with h1 | h1
    · have := pickBest_fst_none (phase1Score plan)
        ((masterDf.filter (fun mr => decide (mr.line = plan.line))).filter
          (fun mr => decide (normalize_text mr.customer = normalize_text plan.customer)))
        (none, 0) rfl (by simpa using hc)
      rw [this] at h1
      exact absurd h1 (by simp)
    · exact absurd h1.2 (not_lt.mpr (phase2_le_40_of_cust0 plan m h0))

/-- Witness for C9's amended theorem, at the concrete phase-1 instance. -/
theorem resolver_zero_customer_amended_witness :
    normalize_text c9plan.customer = "" ∧ normalize_text c9master.customer = "" := by
  exact (resolver_zero_customer_amended c9plan [c9master] c9master (by decide)).2 (by decide)

/-- Helper: `keyMem` is Boolean list membership. -/
theorem keyMem_iff (k : MergeKey) (l : List MergeKey) : keyMem k l = true ↔ k ∈ l := by
  simp [keyMem, List.any_eq_true]

/-- Helper: the aggregated row built for key `k` carries key `k`. -/
theorem aggFor_key (results : List ActualRow) (k : MergeKey) :
    (aggFor results k).key = k := rfl

/-- Helper: a joined row keeps the plan row's key. -/
theorem mergedKey_combine (p : PlanRow) (a : AggRow) :
    mergedKey (combineRow p a) = planKey p := rfl

/-- Helper: a plan-only row keeps the plan row's key. -/
theorem mergedKey_planOnly (p : PlanRow) :
    mergedKey (planOnlyRow p) = planKey p := rfl

/-- Helper: an actual-only row keeps the aggregated row's key. -/
theorem mergedKey_actualOnly (a : AggRow) :
    mergedKey (actualOnlyRow a) = a.key := rfl

/-- Helper: every aggregated row stems from a key of the results table
and is the aggregation of the rows of that key. -/
theorem mem_aggregate (results : List ActualRow) (a : AggRow)
    (ha : a ∈ aggregate_results results) :
    a.key ∈ results.map actualKey ∧ a = aggFor results a.key := by
  unfold aggregate_results at ha
  rcases List.mem_map.mp ha with ⟨k, hk, rfl⟩
  exact ⟨List.dedup_subset _ hk, rfl⟩

/-- Helper: all four emptiness branches of `merge_plan_and_results`
compute the outer join of the cleaned plan with the aggregated results. -/
theorem merge_eq_outerJoin (cleaned : List PlanRow) (results : List ActualRow) :
    merge_plan_and_results cleaned results
      = outerJoin cleaned (aggregate_results results) := by
  unfold merge_plan_and_results
  by_cases h1 : cleaned = [] <;> by_cases h2 : aggregate_results results = []
  · subst h1
    simp [h2, outerJoin]
  · subst h1
    simp [h2, outerJoin, keyMem]
  · simp only [h1, h2]
    simp [outerJoin, h2, List.find?_nil]
  · simp [h1, h2]

/-- C5 as amended.  First conjunct (key-disjoint inputs): the merged row
count is the plan row count plus the number of distinct actual keys —
which is the actual row count exactly when no two actual rows share a
key.  Second conjunct (equal key sets, plan keys pairwise distinct): the
merged row count is the number of distinct composite keys, and every
merged row's 実生産数 is the sum of the quantities of the actual rows
sharing its key.  Third conjunct: rows whose key has no actual partner
keep all actual fields null, and rows whose key has no plan partner keep
all plan fields null. -/
theorem merge_counts_amended (cleaned : List PlanRow) (results : List ActualRow) :
    ((∀ p ∈ cleaned, ∀ r ∈ results, planKey p ≠ actualKey r) →
      (merge_plan_and_results cleaned results).length
        = cleaned.length + ((results.map actualKey).dedup).length)
    ∧ ((cleaned.map planKey).Nodup →
       (∀ r ∈ results, actualKey r ∈ cleaned.map planKey) →
       (∀ p ∈ cleaned, planKey p ∈ results.map actualKey) →
        (merge_plan_and_results cleaned results).length
          = ((results.map actualKey).dedup).length
        ∧ ∀ m ∈ merge_plan_and_results cleaned results,
            m.actualQty = some (((results.filter
              (fun r => decide (actualKey r = mergedKey m))).map
                (fun r => r.actualQty.getD 0)).sum))
    ∧ (∀ m ∈ merge_plan_and_results cleaned results,
        (mergedKey m ∉ results.map actualKey →
          m.actualStart = none ∧ m.actualEnd = none ∧ m.actualQty = none
          ∧ m.actualDurationMin = none)
        ∧ (mergedKey m ∉ cleaned.map planKey →
          m.plannedStart = none ∧ m.plannedEnd = none ∧ m.plannedQty = none)) := by
  have hjoin := merge_eq_outerJoin cleaned results
  refine ⟨?_, ?_, ?_⟩
  · intro hdisj
    rw [hjoin]
    unfold outerJoin
    have hall : (aggregate_results results).filter
        (fun a => ! keyMem a.key (cleaned.map planKey)) = aggregate_results results := by
      apply List.filter_eq_self.mpr
      intro a ha
      rcases mem_aggregate results a ha with ⟨hk, _⟩
      rcases List.mem_map.mp hk with ⟨r, hr, hkey⟩
      have hnot : a.key ∉ cleaned.map planKey := by
        intro hmem
        rcases List.mem_map.mp hmem with ⟨p, hp, hpk⟩
        exact hdisj p hp r hr (hpk.trans hkey.symm)
      have hkm : keyMem a.key (cleaned.map planKey) = false :=
        Bool.eq_false_iff.mpr (fun hx => hnot ((keyMem_iff _ _).mp hx))
      simp [hkm]
    rw [hall, List.length_append, List.length_map, List.length_map]
    congr 1
    unfold aggregate_results
    exact List.length_map _ _
  · intro hnd hra hpa
    have hright : (aggregate_results results).filter
        (fun a => ! keyMem a.key (cleaned.map planKey)) = [] := by
      apply List.filter_eq_nil_iff.mpr
      intro a ha
      rcases mem_aggregate results a ha with ⟨hk, _⟩
      rcases List.mem_map.mp hk with ⟨r, hr, hkey⟩
      have hmem : a.key ∈ cleaned.map planKey := hkey ▸ hra r hr
      have hkm : keyMem a.key (cleaned.map planKey) = true := (keyMem_iff _ _).mpr hmem
      simp [hkm]
    constructor
    · rw [hjoin]
      unfold outerJoin
      rw [hright]
      simp only [List.map_nil, List.append_nil, List.length_map]
      have h1 : (cleaned.map planKey).toFinset = ((results.map actualKey).dedup).toFinset := by
        ext k
        simp only [List.mem_toFinset, List.mem_dedup]
        constructor
        · intro hk
          rcases List.mem_map.mp hk with ⟨p, hp, rfl⟩
          exact hpa p hp
        · intro hk
          rcases List.mem_map.mp hk with ⟨r, hr, rfl⟩
          exact hra r hr
      have h2 := List.toFinset_card_of_nodup hnd
      have h3 := List.toFinset_card_of_nodup (List.nodup_dedup (results.map actualKey))
      calc cleaned.length = (cleaned.map planKey).length := (List.length_map _ _).symm
        _ = (cleaned.map planKey).toFinset.card := h2.symm
        _ = ((results.map actualKey).dedup).toFinset.card := by rw [h1]
        _ = ((results.map actualKey).dedup).length := h3
    · intro m hm
      rw [hjoin] at hm
      unfold outerJoin at hm
      rw [hright] at hm
      simp only [List.map_nil, List.append_nil] at hm
      rcases List.mem_map.mp hm with ⟨p, hp, hmp⟩
      cases hfind : List.find? (fun a => decide (a.key = planKey p)) (aggregate_results results) with
      | none =>
        exfalso
        have hmem : planKey p ∈ (results.map actualKey).dedup :=
          List.mem_dedup.mpr (hpa p hp)
        have hin : aggFor results (planKey p) ∈ aggregate_results results :=
          List.mem_map_of_mem _ hmem
        have := List.find?_eq_none.mp hfind _ hin
        simp [aggFor_key] at this
      | some a =>
        rw [hfind] at hmp
        subst hmp
        rcases List.mem_map.mp (List.mem_of_find?_eq_some hfind) with ⟨k, hk, hak⟩
        have hkey : a.key = planKey p := by simpa using List.find?_some hfind
        subst hak
        rw [aggFor_key] at hkey
        subst hkey
        rw [mergedKey_combine]
        rfl
  · intro m hm
    rw [hjoin] at hm
    unfold outerJoin at hm
    rcases List.mem_append.mp hm with hm | hm
    · rcases List.mem_map.mp hm with ⟨p, hp, hmp⟩
      cases hfind : List.find? (fun a => decide (a.key = planKey p)) (aggregate_results results) with
      | none =>
        rw [hfind] at hmp
        subst hmp
        constructor
        · intro _
          exact ⟨rfl, rfl, rfl, rfl⟩
        · intro hn
          exact absurd (mergedKey_planOnly p ▸ List.mem_map_of_mem planKey hp) hn
      | some a =>
        rw [hfind] at hmp
        subst hmp
        have hkey : a.key = planKey p := by simpa using List.find?_some hfind
        constructor
        · intro hn
          exfalso
          apply hn
          rw [mergedKey_combine, ← hkey]
          exact (mem_aggregate results a (List.mem_of_find?_eq_some hfind)).1
        · intro hn
          exact absurd (mergedKey_combine p a ▸ List.mem_map_of_mem planKey hp) hn
    · rcases List.mem_map.mp hm with ⟨a, ha, hma⟩
      subst hma
      have ha' := List.mem_filter.mp ha
      constructor
      · intro hn
        exfalso
        apply hn
        rw [mergedKey_actualOnly]
        exact (mem_aggregate results a ha'.1).1
      · intro _
        exact ⟨rfl, rfl, rfl⟩

/-- C5 counterexample: one plan row and two actual rows sharing a key
disjoint from the plan's; the claim predicts 1 + 2 = 3 merged rows, the
merge produces 2 (the duplicate-keyed actual rows are aggregated before
the join). -/
theorem merge_disjoint_count_counterexample :
    (planKey c5plan ≠ actualKey c5r1 ∧ planKey c5plan ≠ actualKey c5r2) ∧
    (merge_plan_and_results [c5plan] [c5r1, c5r2]).length = 2 ∧
    (merge_plan_and_results [c5plan] [c5r1, c5r2]).length
      ≠ [c5plan].length + [c5r1, c5r2].length := by decide

/-- Witness for C5's amended theorem: one plan row and one actual row
with disjoint keys merge to 1 + 1 rows. -/
theorem merge_counts_amended_witness :
    (merge_plan_and_results [c5plan] [c5r1]).length = 1 + 1 := by
  have h := (merge_counts_amended [c5plan] [c5r1]).1 (by decide)
  exact h.trans (by decide)

/-- Helper: the step-4 filter keeps exactly the rows that are unplanned
with an actual start, or planned with both planned timestamps. -/
theorem keepRow_iff (r : ClassifiedRow) :
    keepRow r = true ↔
      ((r.row.plannedStart = none ∧ r.row.actualStart ≠ none)
        ∨ (r.row.plannedStart ≠ none ∧ r.row.plannedEnd ≠ none)) := by
  simp [keepRow, Bool.or_eq_true, Bool.and_eq_true,
    Option.isNone_iff_eq_none, Option.isSome_iff_ne_none]

/-- C7: every row of the final progress table has plan data or actual
data, never neither; a row with 予定開始時刻 is kept only with 予定終了時刻
as well (partial plan data is dropped); a row without 予定開始時刻 is in
the output exactly when it has 実生産開始時刻 (second conjunct, over the
classified pre-filter table). -/
theorem progress_table_row_invariant (now : Int) (plan : List PlanRowIn)
    (results : List ActualRow) (master : List MasterRow) (nm : NameMaster)
    (out : List ClassifiedRow)
    (h : create_progress_table now plan results master nm = some out) :
    (∀ r ∈ out,
        (r.row.plannedStart ≠ none ∨ r.row.actualStart ≠ none)
        ∧ (r.row.plannedStart ≠ none → r.row.plannedEnd ≠ none)
        ∧ (r.row.plannedStart = none → r.row.actualStart ≠ none))
    ∧ (∀ r ∈ calculate_differences_and_status now
          (merge_plan_and_results (clean_plan_with_master plan master nm) results),
        (r ∈ out ↔ ((r.row.plannedStart = none ∧ r.row.actualStart ≠ none)
          ∨ (r.row.plannedStart ≠ none ∧ r.row.plannedEnd ≠ none)))) := by
  simp only [create_progress_table] at h
  split at h
  · exact absurd h (by simp)
  · have hout : out = (calculate_differences_and_status now
        (merge_plan_and_results (clean_plan_with_master plan master nm) results)).filter
          keepRow := by
      injection h with h
      exact h.symm
    constructor
    · intro r hr
      rw [hout] at hr
      have hk := (List.mem_filter.mp hr).2
      rcases (keepRow_iff r).mp hk with ⟨h1, h2⟩ | ⟨h1, h2⟩
      · exact ⟨Or.inr h2, fun hne => absurd h1 hne, fun _ => h2⟩
      · exact ⟨Or.inl h1, fun _ => h2, fun heq => absurd heq h1⟩
    · intro r hr
      rw [hout, List.mem_filter]
      constructor
      · intro hx
        exact (keepRow_iff r).mp hx.2
      · intro hx
        exact ⟨hr, (keepRow_iff r).mpr hx⟩

/-- Witness for C7: a concrete end-to-end run keeping one planned row. -/
theorem progress_table_row_invariant_witness :
    (c7r.row.plannedStart ≠ none ∨ c7r.row.actualStart ≠ none)
    ∧ (c7r.row.plannedStart = none → c7r.row.actualStart ≠ none) := by
  have h := progress_table_row_invariant 600 [c7plan] [] [] ⟨[], []⟩ c7out (by rfl)
  have hm : c7r ∈ c7out := by decide
  exact ⟨(h.1 c7r hm).1, (h.1 c7r hm).2.2⟩

